import Mathlib

/-!
Shallow embedding of the `sparsesets` Go package (file `sparsesets.go`) and
verification of its specification.

Modelling conventions:
* Go `int` is modelled as `Int` (capacities here are tiny; overflow is
  irrelevant to the claims).
* Go slices `[]int` are modelled as `List Int`; a Go indexing expression
  `xs[i]`, which panics when `i` is negative or `≥ len(xs)`, is modelled by
  the `Option`-valued accessors `sliceGet` / `sliceSet` (`none` = runtime
  panic).  Likewise a Go slicing expression `xs[:k]` / `xs[k:]` panics unless
  `0 ≤ k ≤ len(xs)`.
* A method returning `error` is modelled by `CallResult`: `ok s` (returned
  `nil`, new state `s`), `errOutOfRange s` (returned the out-of-range error
  value, state `s`), or `panicked` (a runtime panic occurred).
* `New`, which panics on negative capacity, returns `Option Set`.
-/

namespace Sparsesets

/-- Go slice read `xs[i]`: `none` models the runtime panic on a negative or
too-large index. -/
def sliceGet (xs : List Int) (i : Int) : Option Int :=
  if h : 0 ≤ i ∧ i.toNat < xs.length then some (xs.get ⟨i.toNat, h.2⟩) else none

/-- Go slice write `xs[i] = v`: `none` models the runtime panic on a negative
or too-large index. -/
def sliceSet (xs : List Int) (i : Int) (v : Int) : Option (List Int) :=
  if 0 ≤ i ∧ i.toNat < xs.length then some (xs.set i.toNat v) else none

/-- Go: `type Set struct { size int; values []int; positions []int }`. -/
structure Set where
  size : Int
  values : List Int
  positions : List Int
deriving DecidableEq, Repr

/-- Go: `func New(n int) *Set`.  Panics (`none`) if `n` is negative;
otherwise both arrays are initialised to the identity `values[i] = i`,
`positions[i] = i` by the loop in the source. -/
def New (n : Int) : Option Set :=
  if n < 0 then none
  else some { size := 0
              values := (List.range n.toNat).map Int.ofNat
              positions := (List.range n.toNat).map Int.ofNat }

/-- Go: `func (ss *Set) N() int { return len(ss.values) }`. -/
def Set.N (ss : Set) : Int := ss.values.length

/-- Go: `func (ss *Set) Size() int { return ss.size }`. -/
def Set.Size (ss : Set) : Int := ss.size

/-- Go: `func (ss *Set) Contains(elem int) bool`, i.e.
`return ss.positions[elem] < ss.size`.  The indexing is unchecked, so an
out-of-range `elem` panics (`none`). -/
def Set.Contains (ss : Set) (elem : Int) : Option Bool :=
  (sliceGet ss.positions elem).map (fun p => decide (p < ss.size))

/-- Go: `func (ss *Set) swap(p1, p2 int)`. -/
def Set.swap (ss : Set) (p1 p2 : Int) : Option Set :=
  if p1 = p2 then some ss
  else do
    let v1 ← sliceGet ss.values p1
    let v2 ← sliceGet ss.values p2
    let vs1 ← sliceSet ss.values p1 v2
    let vs2 ← sliceSet vs1 p2 v1
    let ps1 ← sliceSet ss.positions v1 p2
    let ps2 ← sliceSet ps1 v2 p1
    some { ss with values := vs2, positions := ps2 }

/-- Result of a Go method returning `error`. -/
inductive CallResult where
  | ok (s : Set)
  | errOutOfRange (s : Set)
  | panicked
deriving DecidableEq, Repr

/-- Go: `func (ss *Set) Remove(elem int) error`.  Note that the source
decrements `ss.size` *before* testing `p >= ss.size`. -/
def Set.Remove (ss : Set) (elem : Int) : CallResult :=
  if ss.N ≤ elem then .errOutOfRange ss
  else
    match sliceGet ss.positions elem with
    | none => .panicked
    | some p =>
      let ss1 : Set := { ss with size := ss.size - 1 }
      if ss1.size ≤ p then .ok ss1
      else
        match ss1.swap p ss1.size with
        | none => .panicked
        | some ss2 => .ok ss2

/-- Go: `func (ss *Set) Insert(elem int) error`. -/
def Set.Insert (ss : Set) (elem : Int) : CallResult :=
  if ss.N ≤ elem then .errOutOfRange ss
  else
    match sliceGet ss.positions elem with
    | none => .panicked
    | some p =>
      if p < ss.size then .ok ss
      else
        match ss.swap p ss.size with
        | none => .panicked
        | some ss1 => .ok { ss1 with size := ss1.size + 1 }

/-- Go: `func (ss *Set) Clear() { ss.size = 0 }`. -/
def Set.Clear (ss : Set) : Set := { ss with size := 0 }

/-- Go: `func (ss *Set) Content() []int { return ss.values[:ss.size] }`.
Slicing panics (`none`) unless `0 ≤ size ≤ len(values)`. -/
def Set.Content (ss : Set) : Option (List Int) :=
  if 0 ≤ ss.size ∧ ss.size ≤ (ss.values.length : Int) then
    some (ss.values.take ss.size.toNat)
  else none

/-- Go: `func (ss *Set) Absent() []int { return ss.values[ss.size:] }`. -/
def Set.Absent (ss : Set) : Option (List Int) :=
  if 0 ≤ ss.size ∧ ss.size ≤ (ss.values.length : Int) then
    some (ss.values.drop ss.size.toNat)
  else none

/-- The structural invariant of §3 of the spec: the two arrays have the same
length and are mutually inverse permutations of `[0, N)`. -/
def StructInv (s : Set) : Prop :=
  s.positions.length = s.values.length ∧
  (∀ i : Nat, i < s.values.length →
      0 ≤ s.values.getD i 0 ∧ (s.values.getD i 0).toNat < s.values.length ∧
      s.positions.getD (s.values.getD i 0).toNat 0 = (i : Int)) ∧
  (∀ v : Nat, v < s.values.length →
      0 ≤ s.positions.getD v 0 ∧ (s.positions.getD v 0).toNat < s.values.length ∧
      s.values.getD (s.positions.getD v 0).toNat 0 = (v : Int))

/-- What actually holds in every reachable state: the structural invariant
and `size ≤ N`.  (`0 ≤ size` does NOT hold in every reachable state; see the
`Remove` bug established below.) -/
def WeakInv (s : Set) : Prop :=
  StructInv s ∧ s.size ≤ (s.values.length : Int)

/-- An uncorrupted state: the structural invariant plus `0 ≤ size ≤ N`. -/
def GoodState (s : Set) : Prop :=
  StructInv s ∧ 0 ≤ s.size ∧ s.size ≤ (s.values.length : Int)

/-- Perform a sequence of `Insert` calls, requiring each to return `nil`. -/
def insertAll (s : Set) (l : List Int) : Option Set :=
  l.foldlM (fun t e =>
    match t.Insert e with
    | .ok t' => some t'
    | _ => none) s

/-- States reachable from construction by in-range `Insert`, `Remove` and
`Clear` calls that complete without a runtime panic. -/
inductive Reachable : Set → Prop
  | init (n : Int) (hn : 0 ≤ n) (s : Set) (hs : New n = some s) : Reachable s
  | insert (s : Set) (e : Int) (s' : Set) (hr : Reachable s) (h0 : 0 ≤ e)
      (hN : e < s.N) (hok : s.Insert e = .ok s') : Reachable s'
  | remove (s : Set) (e : Int) (s' : Set) (hr : Reachable s) (h0 : 0 ≤ e)
      (hN : e < s.N) (hok : s.Remove e = .ok s') : Reachable s'
  | clear (s : Set) (hr : Reachable s) : Reachable s.Clear

theorem getD_eq (l : List Int) {i : Nat} (h : i < l.length) : l.getD i 0 = l[i] :=
  List.getD_eq_getElem l 0 h

theorem getD_set_self {l : List Int} {i : Nat} (h : i < l.length) (v : Int) :
    (l.set i v).getD i 0 = v := by
  rw [List.getD_eq_getElem?_getD, List.getElem?_set_self h]
  rfl

theorem getD_set_ne {l : List Int} {i j : Nat} (h : i ≠ j) (v : Int) :
    (l.set i v).getD j 0 = l.getD j 0 := by
  rw [List.getD_eq_getElem?_getD, List.getElem?_set_ne h, ← List.getD_eq_getElem?_getD]

theorem sliceGet_eq_some {xs : List Int} {i : Int} (h0 : 0 ≤ i)
    (h : i.toNat < xs.length) : sliceGet xs i = some (xs.getD i.toNat 0) := by
  rw [sliceGet, dif_pos ⟨h0, h⟩, getD_eq xs h]
  rfl

theorem sliceGet_some_inv {xs : List Int} {i v : Int} (h : sliceGet xs i = some v) :
    0 ≤ i ∧ i.toNat < xs.length ∧ xs.getD i.toNat 0 = v := by
  rw [sliceGet] at h
  split at h
  · rename_i hc
    refine ⟨hc.1, hc.2, ?_⟩
    rw [getD_eq xs hc.2]
    simpa using h
  · exact absurd h (by simp)

theorem sliceSet_eq_some {xs : List Int} {i : Int} (h0 : 0 ≤ i)
    (h : i.toNat < xs.length) (v : Int) : sliceSet xs i v = some (xs.set i.toNat v) := by
  rw [sliceSet, if_pos ⟨h0, h⟩]

theorem sliceSet_some_inv {xs ys : List Int} {i v : Int} (h : sliceSet xs i v = some ys) :
    0 ≤ i ∧ i.toNat < xs.length ∧ ys = xs.set i.toNat v := by
  rw [sliceSet] at h
  split at h
  · rename_i hc
    exact ⟨hc.1, hc.2, by simpa using h.symm⟩
  · exact absurd h (by simp)

theorem StructInv.val_inj {s : Set} (hI : StructInv s) {i j : Nat}
    (hi : i < s.values.length) (hj : j < s.values.length)
    (h : (s.values.getD i 0).toNat = (s.values.getD j 0).toNat) : i = j := by
  have h1 := hI.2.1 i hi
  have h2 := hI.2.1 j hj
  rw [h] at h1
  have : (i : Int) = (j : Int) := h1.2.2.symm.trans h2.2.2
  exact_mod_cast this

theorem StructInv.nodup_values {s : Set} (hI : StructInv s) : s.values.Nodup := by
  rw [List.nodup_iff_injective_get]
  intro a b hab
  rcases a with ⟨i, hi⟩
  rcases b with ⟨j, hj⟩
  have hgi : s.values.getD i 0 = s.values.get ⟨i, hi⟩ := getD_eq _ hi
  have hgj : s.values.getD j 0 = s.values.get ⟨j, hj⟩ := getD_eq _ hj
  have : i = j := hI.val_inj hi hj (by rw [hgi, hgj, hab])
  simpa using this

theorem val_index_unique {s : Set} (hI : StructInv s) {x : Int} {i : Nat}
    (hi : i < s.values.length) (hvi : s.values.getD i 0 = x) :
    i = (s.positions.getD x.toNat 0).toNat := by
  have h1 := hI.2.1 i hi
  rw [hvi] at h1
  omega

theorem mem_values_iff {s : Set} (hI : StructInv s) (x : Int) :
    x ∈ s.values ↔ 0 ≤ x ∧ x.toNat < s.values.length := by
  constructor
  · intro hx
    rcases List.mem_iff_getElem.mp hx with ⟨n, hn, hnx⟩
    have := hI.2.1 n hn
    rw [getD_eq _ hn, hnx] at this
    exact ⟨this.1, this.2.1⟩
  · rintro ⟨h0, hx⟩
    have h2 := hI.2.2 x.toNat hx
    have hq : (s.positions.getD x.toNat 0).toNat < s.values.length := h2.2.1
    have : s.values.getD (s.positions.getD x.toNat 0).toNat 0 = x := by
      rw [h2.2.2]
      omega
    rw [getD_eq _ hq] at this
    exact this ▸ List.getElem_mem hq

theorem count_take_values {s : Set} (hI : StructInv s) {x : Int} (h0 : 0 ≤ x)
    (hx : x.toNat < s.values.length) {k : Nat} (hk : k ≤ s.values.length) :
    (s.values.take k).count x =
      if (s.positions.getD x.toNat 0).toNat < k then 1 else 0 := by
  have hmem : x ∈ s.values.take k ↔ (s.positions.getD x.toNat 0).toNat < k := by
    constructor
    · intro hm
      rcases List.mem_iff_getElem.mp hm with ⟨n, hn, hnx⟩
      have hnk : n < k := lt_of_lt_of_le hn (by simp)
      have hnl : n < s.values.length := lt_of_lt_of_le hn (by simp)
      rw [List.getElem_take s.values] at hnx
      have hgd : s.values.getD n 0 = x := by rw [getD_eq _ hnl]; exact hnx
      have := val_index_unique hI hnl hgd
      omega
    · intro hq
      have h2 := hI.2.2 x.toNat hx
      have hql : (s.positions.getD x.toNat 0).toNat < s.values.length := h2.2.1
      have hv : s.values.getD (s.positions.getD x.toNat 0).toNat 0 = x := by
        rw [h2.2.2]; omega
      have hlen : (s.values.take k).length = k := by
        rw [List.length_take]; omega
      have hlt : (s.positions.getD x.toNat 0).toNat < (s.values.take k).length := by
        rw [hlen]; exact hq
      refine List.mem_iff_getElem.mpr ⟨(s.positions.getD x.toNat 0).toNat, hlt, ?_⟩
      rw [List.getElem_take s.values]
      rw [getD_eq _ hql] at hv
      exact hv
  by_cases hq : (s.positions.getD x.toNat 0).toNat < k
  · rw [if_pos hq]
    exact List.count_eq_one_of_mem
      ((List.take_sublist k s.values).nodup hI.nodup_values) (hmem.mpr hq)
  · rw [if_neg hq]
    exact List.count_eq_zero.mpr (fun hm => hq (hmem.mp hm))

theorem count_values {s : Set} (hI : StructInv s) {x : Int} (h0 : 0 ≤ x)
    (hx : x.toNat < s.values.length) : s.values.count x = 1 :=
  List.count_eq_one_of_mem hI.nodup_values ((mem_values_iff hI x).mpr ⟨h0, hx⟩)

theorem count_drop_values {s : Set} (hI : StructInv s) {x : Int} (h0 : 0 ≤ x)
    (hx : x.toNat < s.values.length) {k : Nat} (hk : k ≤ s.values.length) :
    (s.values.drop k).count x =
      if k ≤ (s.positions.getD x.toNat 0).toNat then 1 else 0 := by
  have hsplit : (s.values.take k).count x + (s.values.drop k).count x = 1 := by
    rw [← List.count_append, List.take_append_drop, count_values hI h0 hx]
  rw [count_take_values hI h0 hx hk] at hsplit
  by_cases hq : (s.positions.getD x.toNat 0).toNat < k
  · rw [if_neg (by omega)]
    rw [if_pos hq] at hsplit
    omega
  · rw [if_pos (by omega)]
    rw [if_neg hq] at hsplit
    omega

theorem values_perm_range {s : Set} (hI : StructInv s) :
    s.values.Perm ((List.range s.values.length).map Int.ofNat) := by
  rw [List.perm_iff_count]
  intro a
  have hmemr : a ∈ (List.range s.values.length).map Int.ofNat ↔
      0 ≤ a ∧ a.toNat < s.values.length := by
    simp only [List.mem_map, List.mem_range]
    constructor
    · rintro ⟨m, hm, rfl⟩
      simp
      omega
    · rintro ⟨h0, ha⟩
      exact ⟨a.toNat, ha, by exact_mod_cast Int.toNat_of_nonneg h0⟩
  have hinj : Function.Injective Int.ofNat := fun x y hxy => Int.ofNat.inj hxy
  have hnodr : ((List.range s.values.length).map Int.ofNat).Nodup :=
    (List.nodup_range _).map hinj
  by_cases hmem : 0 ≤ a ∧ a.toNat < s.values.length
  · rw [List.count_eq_one_of_mem hI.nodup_values ((mem_values_iff hI a).mpr hmem),
      List.count_eq_one_of_mem hnodr (hmemr.mpr hmem)]
  · rw [List.count_eq_zero.mpr (fun hm => hmem ((mem_values_iff hI a).mp hm)),
      List.count_eq_zero.mpr (fun hm => hmem (hmemr.mp hm))]

theorem swap_ok {s : Set} (hI : StructInv s) {p1 p2 : Int}
    (h1 : 0 ≤ p1) (h1l : p1.toNat < s.values.length)
    (h2 : 0 ≤ p2) (h2l : p2.toNat < s.values.length) :
    ∃ s', s.swap p1 p2 = some s' ∧
      s'.size = s.size ∧
      s'.values.length = s.values.length ∧
      s'.positions.length = s.positions.length ∧
      (∀ i : Nat, i < s.values.length →
        s'.values.getD i 0 =
          if i = p1.toNat then s.values.getD p2.toNat 0
          else if i = p2.toNat then s.values.getD p1.toNat 0
          else s.values.getD i 0) ∧
      (∀ v : Nat, v < s.values.length →
        s'.positions.getD v 0 =
          if v = (s.values.getD p1.toNat 0).toNat then p2
          else if v = (s.values.getD p2.toNat 0).toNat then p1
          else s.positions.getD v 0) ∧
      StructInv s' := by
  obtain ⟨hlen, hV, hP⟩ := hI
  have hVa := hV p1.toNat h1l
  have hVb := hV p2.toNat h2l
  by_cases hpp : p1 = p2
  · refine ⟨s, by rw [Set.swap, if_pos hpp], rfl, rfl, rfl, ?_, ?_, hlen, hV, hP⟩
    · intro i hi
      subst hpp
      by_cases hia : i = p1.toNat
      · rw [if_pos hia, hia]
      · rw [if_neg hia, if_neg hia]
    · intro v hv
      subst hpp
      by_cases hva : v = (s.values.getD p1.toNat 0).toNat
      · rw [if_pos hva, hva, hVa.2.2]
        omega
      · rw [if_neg hva, if_neg hva]
  · have hab : p1.toNat ≠ p2.toNat := by omega
    have hv12 : (s.values.getD p1.toNat 0).toNat ≠ (s.values.getD p2.toNat 0).toNat := by
      intro hcon
      exact hab (StructInv.val_inj ⟨hlen, hV, hP⟩ h1l h2l hcon)
    have hVal : (s.values.getD p1.toNat 0).toNat < s.positions.length := by
      rw [hlen]; exact hVa.2.1
    have hVbl : (s.values.getD p2.toNat 0).toNat < s.positions.length := by
      rw [hlen]; exact hVb.2.1
    have hseq : s.swap p1 p2 = some
        { s with
          values := (s.values.set p1.toNat (s.values.getD p2.toNat 0)).set p2.toNat
            (s.values.getD p1.toNat 0)
          positions := (s.positions.set (s.values.getD p1.toNat 0).toNat p2).set
            (s.values.getD p2.toNat 0).toNat p1 } := by
      rw [Set.swap, if_neg hpp, sliceGet_eq_some h1 h1l, sliceGet_eq_some h2 h2l]
      simp only [Option.bind_eq_bind, Option.some_bind]
      rw [sliceSet_eq_some h1 h1l]
      simp only [Option.some_bind]
      rw [sliceSet_eq_some h2 (by rw [List.length_set]; exact h2l)]
      simp only [Option.some_bind]
      rw [sliceSet_eq_some hVa.1 hVal]
      simp only [Option.some_bind]
      rw [sliceSet_eq_some hVb.1 (by rw [List.length_set]; exact hVbl)]
      simp only [Option.some_bind]
    have hvlen : ((s.values.set p1.toNat (s.values.getD p2.toNat 0)).set p2.toNat
        (s.values.getD p1.toNat 0)).length = s.values.length := by
      rw [List.length_set, List.length_set]
    have hplen : ((s.positions.set (s.values.getD p1.toNat 0).toNat p2).set
        (s.values.getD p2.toNat 0).toNat p1).length = s.positions.length := by
      rw [List.length_set, List.length_set]
    have hvpt : ∀ i : Nat, i < s.values.length →
        ((s.values.set p1.toNat (s.values.getD p2.toNat 0)).set p2.toNat
          (s.values.getD p1.toNat 0)).getD i 0 =
          if i = p1.toNat then s.values.getD p2.toNat 0
          else if i = p2.toNat then s.values.getD p1.toNat 0
          else s.values.getD i 0 := by
      intro i hi
      by_cases hib : i = p2.toNat
      · subst hib
        rw [getD_set_self (by rw [List.length_set]; exact hi) _, if_neg (fun hc => hab hc.symm),
          if_pos rfl]
      · rw [getD_set_ne (fun hc => hib hc.symm) _]
        by_cases hia : i = p1.toNat
        · subst hia
          rw [getD_set_self hi _, if_pos rfl]
        · rw [getD_set_ne (fun hc => hia hc.symm) _, if_neg hia, if_neg hib]
    have hppt : ∀ v : Nat, v < s.values.length →
        ((s.positions.set (s.values.getD p1.toNat 0).toNat p2).set
          (s.values.getD p2.toNat 0).toNat p1).getD v 0 =
          if v = (s.values.getD p1.toNat 0).toNat then p2
          else if v = (s.values.getD p2.toNat 0).toNat then p1
          else s.positions.getD v 0 := by
      intro v hv
      by_cases hvb : v = (s.values.getD p2.toNat 0).toNat
      · subst hvb
        rw [getD_set_self (by rw [List.length_set]; exact hVbl) _,
          if_neg (fun hc => hv12 hc.symm), if_pos rfl]
      · rw [getD_set_ne (fun hc => hvb hc.symm) _]
        by_cases hva : v = (s.values.getD p1.toNat 0).toNat
        · subst hva
          rw [getD_set_self hVal _, if_pos rfl]
        · rw [getD_set_ne (fun hc => hva hc.symm) _, if_neg hva, if_neg hvb]
    refine ⟨_, hseq, rfl, hvlen, hplen, hvpt, hppt, ?_⟩
    refine ⟨by rw [hplen, hvlen, hlen], ?_, ?_⟩
    · intro i hi
      rw [hvlen] at hi
      rw [hvlen]
      rw [hvpt i hi]
      by_cases hia : i = p1.toNat
      · rw [if_pos hia]
        refine ⟨hVb.1, hVb.2.1, ?_⟩
        rw [hppt _ hVb.2.1, if_neg (fun hc => hv12 hc.symm), if_pos rfl]
        omega
      · rw [if_neg hia]
        by_cases hib : i = p2.toNat
        · rw [if_pos hib]
          refine ⟨hVa.1, hVa.2.1, ?_⟩
          rw [hppt _ hVa.2.1, if_pos rfl]
          omega
        · rw [if_neg hib]
          have hVi := hV i hi
          refine ⟨hVi.1, hVi.2.1, ?_⟩
          have hna : (s.values.getD i 0).toNat ≠ (s.values.getD p1.toNat 0).toNat :=
            fun hc => hia (StructInv.val_inj ⟨hlen, hV, hP⟩ hi h1l hc)
          have hnb : (s.values.getD i 0).toNat ≠ (s.values.getD p2.toNat 0).toNat :=
            fun hc => hib (StructInv.val_inj ⟨hlen, hV, hP⟩ hi h2l hc)
          rw [hppt _ hVi.2.1, if_neg hna, if_neg hnb]
          exact hVi.2.2
    · intro v hv
      rw [hvlen] at hv
      rw [hvlen]
      rw [hppt v hv]
      by_cases hva : v = (s.values.getD p1.toNat 0).toNat
      · rw [if_pos hva]
        refine ⟨h2, h2l, ?_⟩
        rw [hvpt _ h2l, if_neg (fun hc => hab hc.symm), if_pos rfl]
        omega
      · rw [if_neg hva]
        by_cases hvb : v = (s.values.getD p2.toNat 0).toNat
        · rw [if_pos hvb]
          refine ⟨h1, h1l, ?_⟩
          rw [hvpt _ h1l, if_pos rfl]
          omega
        · rw [if_neg hvb]
          have hPv := hP v hv
          refine ⟨hPv.1, hPv.2.1, ?_⟩
          have hna : (s.positions.getD v 0).toNat ≠ p1.toNat := by
            intro hc
            apply hva
            have := hPv.2.2
            rw [hc] at this
            omega
          have hnb : (s.positions.getD v 0).toNat ≠ p2.toNat := by
            intro hc
            apply hvb
            have := hPv.2.2
            rw [hc] at this
            omega
          rw [hvpt _ hPv.2.1, if_neg hna, if_neg hnb]
          exact hPv.2.2

theorem swap_some_inv {s : Set} {p1 p2 : Int} {s' : Set}
    (h : s.swap p1 p2 = some s') :
    p1 = p2 ∨ (0 ≤ p1 ∧ p1.toNat < s.values.length ∧ 0 ≤ p2 ∧
      p2.toNat < s.values.length) := by
  rw [Set.swap] at h
  split at h
  · left; assumption
  · right
    rw [Option.bind_eq_bind, Option.bind_eq_some] at h
    obtain ⟨v1, hv1, h⟩ := h
    rw [Option.bind_eq_bind, Option.bind_eq_some] at h
    obtain ⟨v2, hv2, h⟩ := h
    obtain ⟨ha, hal, -⟩ := sliceGet_some_inv hv1
    obtain ⟨hb, hbl, -⟩ := sliceGet_some_inv hv2
    exact ⟨ha, hal, hb, hbl⟩

theorem take_eq_of_pointwise {l1 l2 : List Int} {k : Nat} (hk1 : k ≤ l1.length)
    (hk2 : k ≤ l2.length) (h : ∀ i : Nat, i < k → l1.getD i 0 = l2.getD i 0) :
    l1.take k = l2.take k := by
  apply List.ext_getElem
  · rw [List.length_take, List.length_take]
    omega
  · intro i h1 h2
    rw [List.length_take] at h1
    have hik : i < k := by omega
    have hi1 : i < l1.length := by omega
    have hi2 : i < l2.length := by omega
    rw [List.getElem_take l1, List.getElem_take l2]
    have := h i hik
    rw [getD_eq _ hi1, getD_eq _ hi2] at this
    exact this

theorem take_succ_getD {l : List Int} {k : Nat} (hk : k < l.length) :
    l.take (k + 1) = l.take k ++ [l.getD k 0] := by
  rw [List.take_succ, getD_eq _ hk]
  have : l[k]? = some l[k] := List.getElem?_eq_getElem hk
  rw [this]
  rfl

theorem getD_rangeMap {n i : Nat} (h : i < n) :
    ((List.range n).map Int.ofNat).getD i 0 = (i : Int) := by
  have hl : i < ((List.range n).map Int.ofNat).length := by simpa using h
  rw [getD_eq _ hl]
  simp

theorem New_eq_some {n : Int} (hn : 0 ≤ n) :
    New n = some { size := 0
                   values := (List.range n.toNat).map Int.ofNat
                   positions := (List.range n.toNat).map Int.ofNat } := by
  rw [New, if_neg (by omega)]

theorem New_good {n : Int} (hn : 0 ≤ n) {s : Set} (hs : New n = some s) :
    GoodState s ∧ s.size = 0 ∧ s.values.length = n.toNat ∧
    (∀ i : Nat, i < n.toNat → s.values.getD i 0 = i ∧ s.positions.getD i 0 = i) := by
  rw [New_eq_some hn] at hs
  obtain rfl := (Option.some.inj hs).symm
  have hlen : ((List.range n.toNat).map Int.ofNat).length = n.toNat := by simp
  have hid : ∀ i : Nat, i < n.toNat →
      ((List.range n.toNat).map Int.ofNat).getD i 0 = (i : Int) :=
    fun i hi => getD_rangeMap hi
  refine ⟨⟨⟨by simp, ?_, ?_⟩, by simp, by simp⟩, rfl, by simp, ?_⟩
  · intro i hi
    rw [hlen] at hi
    rw [hlen, hid i hi]
    have : ((i : Int)).toNat = i := by omega
    rw [this, hid i hi]
    exact ⟨by omega, by omega, rfl⟩
  · intro v hv
    rw [hlen] at hv
    rw [hlen, hid v hv]
    have : ((v : Int)).toNat = v := by omega
    rw [this, hid v hv]
    exact ⟨by omega, by omega, rfl⟩
  · intro i hi
    exact ⟨hid i hi, hid i hi⟩

theorem Insert_present {s : Set} {e : Int} (hlen : s.positions.length = s.values.length)
    (h0 : 0 ≤ e) (hl : e.toNat < s.values.length)
    (hp : s.positions.getD e.toNat 0 < s.size) : s.Insert e = .ok s := by
  have hg : sliceGet s.positions e = some (s.positions.getD e.toNat 0) :=
    sliceGet_eq_some h0 (by rw [hlen]; exact hl)
  have hN : ¬ (s.N ≤ e) := by rw [Set.N]; omega
  simp only [Set.Insert, if_neg hN, hg, if_pos hp]

theorem Insert_absent {s : Set} {e : Int} (hI : StructInv s)
    (h0 : 0 ≤ e) (hl : e.toNat < s.values.length)
    (hsz0 : 0 ≤ s.size)
    (hp : s.size ≤ s.positions.getD e.toNat 0) :
    ∃ s', s.Insert e = .ok s' ∧
      s'.size = s.size + 1 ∧
      s'.values.length = s.values.length ∧
      s'.positions.length = s.positions.length ∧
      StructInv s' ∧
      s'.positions.getD e.toNat 0 = s.size ∧
      s'.values.getD s.size.toNat 0 = e ∧
      s'.values.getD (s.positions.getD e.toNat 0).toNat 0 =
        s.values.getD s.size.toNat 0 ∧
      (∀ i : Nat, i < s.values.length → i ≠ s.size.toNat →
        i ≠ (s.positions.getD e.toNat 0).toNat →
        s'.values.getD i 0 = s.values.getD i 0) ∧
      s'.positions.getD (s.values.getD s.size.toNat 0).toNat 0 =
        s.positions.getD e.toNat 0 ∧
      (∀ v : Nat, v < s.values.length → v ≠ e.toNat →
        v ≠ (s.values.getD s.size.toNat 0).toNat →
        s'.positions.getD v 0 = s.positions.getD v 0) ∧
      s'.Contains e = some true := by
  obtain ⟨hlen, hV, hP⟩ := hI
  have hPe := hP e.toNat hl
  have hVPe : s.values.getD (s.positions.getD e.toNat 0).toNat 0 = e := by
    rw [hPe.2.2]; omega
  have hszl : s.size.toNat < s.values.length := by omega
  obtain ⟨t, hsw, hts, htv, htp, hvpt, hppt, hIt⟩ :=
    swap_ok ⟨hlen, hV, hP⟩ hPe.1 hPe.2.1 hsz0 hszl
  have hg : sliceGet s.positions e = some (s.positions.getD e.toNat 0) :=
    sliceGet_eq_some h0 (by rw [hlen]; exact hl)
  have hN : ¬ (s.N ≤ e) := by rw [Set.N]; omega
  have hok : s.Insert e = .ok { t with size := t.size + 1 } := by
    simp only [Set.Insert, if_neg hN, hg, if_neg (not_lt.mpr hp), hsw]
  have h1 : t.positions.getD e.toNat 0 = s.size := by
    rw [hppt e.toNat hl, hVPe, if_pos rfl]
  have h2 : t.values.getD s.size.toNat 0 = e := by
    rw [hvpt s.size.toNat hszl]
    by_cases hps : s.size.toNat = (s.positions.getD e.toNat 0).toNat
    · rw [if_pos hps]
      rw [← hps] at hVPe
      exact hVPe
    · rw [if_neg hps, if_pos rfl]
      exact hVPe
  have h3 : t.values.getD (s.positions.getD e.toNat 0).toNat 0 =
      s.values.getD s.size.toNat 0 := by
    rw [hvpt _ hPe.2.1, if_pos rfl]
  have h4 : ∀ i : Nat, i < s.values.length → i ≠ s.size.toNat →
      i ≠ (s.positions.getD e.toNat 0).toNat →
      t.values.getD i 0 = s.values.getD i 0 := by
    intro i hi hi1 hi2
    rw [hvpt i hi, if_neg hi2, if_neg hi1]
  have h5 : t.positions.getD (s.values.getD s.size.toNat 0).toNat 0 =
      s.positions.getD e.toNat 0 := by
    have hvs := hV s.size.toNat hszl
    rw [hppt _ hvs.2.1]
    by_cases hc : (s.values.getD s.size.toNat 0).toNat =
        (s.values.getD (s.positions.getD e.toNat 0).toNat 0).toNat
    · rw [if_pos hc]
      have := StructInv.val_inj ⟨hlen, hV, hP⟩ hszl hPe.2.1 hc
      omega
    · rw [if_neg hc, if_pos rfl]
  have h6 : ∀ v : Nat, v < s.values.length → v ≠ e.toNat →
      v ≠ (s.values.getD s.size.toNat 0).toNat →
      t.positions.getD v 0 = s.positions.getD v 0 := by
    intro v hv hv1 hv2
    rw [hppt v hv, hVPe, if_neg hv1, if_neg hv2]
  have h7 : Set.Contains { t with size := t.size + 1 } e = some true := by
    show (sliceGet t.positions e).map (fun p => decide (p < t.size + 1)) = some true
    have hgl : e.toNat < t.positions.length := by rw [htp, hlen]; exact hl
    rw [sliceGet_eq_some h0 hgl, Option.map_some', h1]
    have : s.size < t.size + 1 := by omega
    simp [this]
  exact ⟨{ t with size := t.size + 1 }, hok, by show t.size + 1 = s.size + 1; rw [hts],
    htv, htp, hIt, h1, h2, h3, h4, h5, h6, h7⟩

theorem Remove_present {s : Set} {e : Int} (hI : StructInv s)
    (h0 : 0 ≤ e) (hl : e.toNat < s.values.length)
    (hszN : s.size ≤ (s.values.length : Int))
    (hp : s.positions.getD e.toNat 0 < s.size) :
    ∃ s', s.Remove e = .ok s' ∧
      s'.size = s.size - 1 ∧
      s'.values.length = s.values.length ∧
      s'.positions.length = s.positions.length ∧
      StructInv s' ∧
      s'.positions.getD e.toNat 0 = s.size - 1 ∧
      s'.values.getD (s.size - 1).toNat 0 = e ∧
      s'.Contains e = some false := by
  obtain ⟨hlen, hV, hP⟩ := hI
  have hPe := hP e.toNat hl
  have hVPe : s.values.getD (s.positions.getD e.toNat 0).toNat 0 = e := by
    rw [hPe.2.2]; omega
  have hg : sliceGet s.positions e = some (s.positions.getD e.toNat 0) :=
    sliceGet_eq_some h0 (by rw [hlen]; exact hl)
  have hN : ¬ (s.N ≤ e) := by rw [Set.N]; omega
  have hsz1 : 0 ≤ s.size - 1 := by omega
  have hsz1l : (s.size - 1).toNat < s.values.length := by omega
  by_cases hcase : s.size - 1 ≤ s.positions.getD e.toNat 0
  · have hok : s.Remove e = .ok { s with size := s.size - 1 } := by
      simp only [Set.Remove, if_neg hN, hg, if_pos hcase]
    have hpe1 : s.positions.getD e.toNat 0 = s.size - 1 := by omega
    refine ⟨_, hok, rfl, rfl, rfl, ⟨hlen, hV, hP⟩, hpe1, ?_, ?_⟩
    · show s.values.getD (s.size - 1).toNat 0 = e
      rw [← hpe1]
      exact hVPe
    · show (sliceGet s.positions e).map (fun p => decide (p < s.size - 1)) = some false
      rw [hg, Option.map_some', hpe1]
      simp
  · have hplt : s.positions.getD e.toNat 0 < s.size - 1 := by omega
    have hI1 : StructInv { s with size := s.size - 1 } := ⟨hlen, hV, hP⟩
    obtain ⟨t, hsw, hts, htv, htp, hvpt, hppt, hIt⟩ :=
      swap_ok hI1 hPe.1 hPe.2.1 hsz1 hsz1l
    dsimp only at hsw hts htv htp hvpt hppt
    have hok : s.Remove e = .ok t := by
      simp only [Set.Remove, if_neg hN, hg, if_neg hcase, hsw]
    have h1 : t.positions.getD e.toNat 0 = s.size - 1 := by
      rw [hppt e.toNat hl, hVPe, if_pos rfl]
    have h2 : t.values.getD (s.size - 1).toNat 0 = e := by
      rw [hvpt _ hsz1l, if_neg (by omega), if_pos rfl]
      exact hVPe
    have h3 : Set.Contains t e = some false := by
      show (sliceGet t.positions e).map (fun p => decide (p < t.size)) = some false
      have hgl : e.toNat < t.positions.length := by rw [htp, hlen]; exact hl
      rw [sliceGet_eq_some h0 hgl, Option.map_some', h1, hts]
      simp
    exact ⟨t, hok, hts, htv, htp, hIt, h1, h2, h3⟩

theorem Insert_ok_inv {s : Set} {e : Int} {s' : Set} (hW : WeakInv s)
    (hok : s.Insert e = .ok s') :
    0 ≤ e ∧ e.toNat < s.values.length ∧ GoodState s' ∧
    s'.values.length = s.values.length ∧
    s'.positions.length = s.positions.length ∧
    s'.positions.getD e.toNat 0 < s'.size := by
  obtain ⟨hI, hszN⟩ := hW
  have hok0 := hok
  simp only [Set.Insert] at hok
  split at hok
  · exact (CallResult.noConfusion hok)
  · rename_i hNlt
    split at hok
    · exact (CallResult.noConfusion hok)
    · rename_i p heq
      obtain ⟨h0, hlp, hpd⟩ := sliceGet_some_inv heq
      have hl : e.toNat < s.values.length := by rw [← hI.1]; exact hlp
      have hp0 : 0 ≤ s.positions.getD e.toNat 0 := (hI.2.2 e.toNat hl).1
      split at hok
      · rename_i hlt
        obtain rfl : s = s' := CallResult.ok.inj hok
        rw [hpd]
        refine ⟨h0, hl, ⟨hI, by omega, hszN⟩, rfl, rfl, by omega⟩
      · rename_i hnlt
        split at hok
        · exact (CallResult.noConfusion hok)
        · rename_i t heqsw
          have hp : s.size ≤ s.positions.getD e.toNat 0 := by
            rw [hpd]; omega
          have hsz0 : 0 ≤ s.size := by
            rcases swap_some_inv heqsw with hc | hc
            · omega
            · exact hc.2.2.1
          obtain ⟨s'', hok'', hs1, hs2, hs3, hIs, hpos, -, -, -, -, -, -⟩ :=
            Insert_absent hI h0 hl hsz0 hp
          obtain rfl : s'' = s' := CallResult.ok.inj (hok''.symm.trans hok0)
          have hplt : s.positions.getD e.toNat 0 < (s.values.length : Int) := by
            have := (hI.2.2 e.toNat hl).2.1
            omega
          exact ⟨h0, hl, ⟨hIs, by omega, by omega⟩, hs2, hs3, by omega⟩

theorem Remove_ok_weak {s : Set} {e : Int} {s' : Set} (hW : WeakInv s)
    (hok : s.Remove e = .ok s') :
    WeakInv s' ∧ s'.values.length = s.values.length ∧ s'.size = s.size - 1 := by
  obtain ⟨hI, hszN⟩ := hW
  have hok0 := hok
  simp only [Set.Remove] at hok
  split at hok
  · exact (CallResult.noConfusion hok)
  · rename_i hNlt
    split at hok
    · exact (CallResult.noConfusion hok)
    · rename_i p heq
      obtain ⟨h0, hlp, hpd⟩ := sliceGet_some_inv heq
      have hl : e.toNat < s.values.length := by rw [← hI.1]; exact hlp
      split at hok
      · obtain rfl : ({ s with size := s.size - 1 } : Set) = s' :=
          CallResult.ok.inj hok
        exact ⟨⟨hI, by show s.size - 1 ≤ (s.values.length : Int); omega⟩, rfl, rfl⟩
      · rename_i hnle
        split at hok
        · exact (CallResult.noConfusion hok)
        · rename_i t heqsw
          have hp : s.positions.getD e.toNat 0 < s.size := by
            omega
          obtain ⟨s'', hok'', hs1, hs2, hs3, hIs, -, -, -⟩ :=
            Remove_present hI h0 hl hszN hp
          obtain rfl : s'' = s' := CallResult.ok.inj (hok''.symm.trans hok0)
          exact ⟨⟨hIs, by omega⟩, hs2, hs1⟩

theorem Clear_weak {s : Set} (hW : WeakInv s) : WeakInv s.Clear := by
  refine ⟨hW.1, ?_⟩
  show (0 : Int) ≤ s.values.length
  positivity

theorem reachable_weakInv {s : Set} (hr : Reachable s) : WeakInv s := by
  induction hr with
  | init n hn t ht =>
    obtain ⟨⟨hI, h1, h2⟩, -, -, -⟩ := New_good hn ht
    exact ⟨hI, h2⟩
  | insert t e t' hr h0 hN hok ih =>
    obtain ⟨-, -, hG, hv, -, -⟩ := Insert_ok_inv ih hok
    exact ⟨hG.1, hG.2.2⟩
  | remove t e t' hr h0 hN hok ih =>
    exact (Remove_ok_weak ih hok).1
  | clear t hr ih => exact Clear_weak ih

theorem sliceGet_none_of_neg {xs : List Int} {i : Int} (h : i < 0) :
    sliceGet xs i = none := by
  rw [sliceGet, dif_neg]
  omega

theorem sliceGet_none_of_ge {xs : List Int} {i : Int}
    (h : (xs.length : Int) ≤ i) : sliceGet xs i = none := by
  rw [sliceGet, dif_neg]
  omega

theorem absent_of_not_mem_take {s : Set} (hG : GoodState s) {e : Int}
    (h0 : 0 ≤ e) (hl : e.toNat < s.values.length)
    (hnm : e ∉ s.values.take s.size.toNat) :
    s.size ≤ s.positions.getD e.toNat 0 := by
  obtain ⟨hI, hsz0, hszN⟩ := hG
  have hk : s.size.toNat ≤ s.values.length := by omega
  have hcnt := count_take_values hI h0 hl hk
  rw [List.count_eq_zero.mpr hnm] at hcnt
  have hnlt : ¬ ((s.positions.getD e.toNat 0).toNat < s.size.toNat) := by
    intro hc
    rw [if_pos hc] at hcnt
    exact absurd hcnt (by omega)
  have hp0 := (hI.2.2 e.toNat hl).1
  omega

/-- C1: for every in-range element that is currently absent, `Remove` is
claimed to be a no-op that succeeds, leaving the entire state (in particular
`Size`) unchanged.  The code violates this: `Remove` decrements `ss.size`
*before* the `p >= ss.size` test, so removing the absent element `0` from the
freshly constructed one-element set returns `nil` but changes `size` from `0`
to `-1`.  This theorem evaluates the code at that failing input. -/
theorem C1_remove_absent_changes_state :
    New 1 = some { size := 0, values := [0], positions := [0] } ∧
    Set.Contains { size := 0, values := [0], positions := [0] } 0 = some false ∧
    Set.Remove { size := 0, values := [0], positions := [0] } 0 =
      .ok { size := -1, values := [0], positions := [0] } ∧
    ¬ (Set.Size { size := -1, values := [0], positions := [0] } =
      Set.Size { size := 0, values := [0], positions := [0] }) := by
  refine ⟨?_, ?_, ?_, ?_⟩ <;> decide

/-- C2: every state reachable by in-range `Insert`/`Remove`/`Clear` calls is
claimed to satisfy the structural invariants, among them `0 ≤ size ≤ N`.
The code violates this: the state reached by `New(1); Remove(0)` is reachable
and has `size = -1`. -/
theorem C2_reachable_state_violates_invariant :
    Reachable { size := -1, values := [0], positions := [0] } ∧
    ¬ (0 ≤ Set.Size { size := -1, values := [0], positions := [0] }) := by
  constructor
  · have h1 : New 1 = some { size := 0, values := [0], positions := [0] } := by
      decide
    have h2 : Set.Remove { size := 0, values := [0], positions := [0] } 0 =
        .ok { size := -1, values := [0], positions := [0] } := by decide
    exact Reachable.remove _ 0 _ (Reachable.init 1 (by decide) _ h1) (by decide)
      (by decide) h2
  · decide

/-- C3 (counterexample): the claim states that for every element outside
`[0, capacity)` — including every negative element — `Insert` and `Remove`
fail with a recoverable error value and never panic.  The code only guards
`elem >= ss.N()`, so a negative element reaches the unchecked slice read
`ss.positions[elem]` and panics. -/
theorem C3_negative_elem_panics :
    New 3 = some { size := 0, values := [0, 1, 2], positions := [0, 1, 2] } ∧
    Set.Insert { size := 0, values := [0, 1, 2], positions := [0, 1, 2] } (-1) =
      .panicked ∧
    Set.Remove { size := 0, values := [0, 1, 2], positions := [0, 1, 2] } (-1) =
      .panicked := by
  refine ⟨?_, ?_, ?_⟩ <;> decide

/-- C3 (amended): for every element `≥ capacity`, `Insert` and `Remove`
return the recoverable out-of-range error value and leave the state exactly
unchanged; for every negative element they panic on the `positions[elem]`
read instead of returning an error. -/
theorem C3_out_of_range_behavior (s : Set) (e : Int) :
    (s.N ≤ e →
      s.Insert e = .errOutOfRange s ∧ s.Remove e = .errOutOfRange s) ∧
    (e < 0 →
      s.Insert e = .panicked ∧ s.Remove e = .panicked) := by
  constructor
  · intro h
    constructor
    · simp only [Set.Insert, if_pos h]
    · simp only [Set.Remove, if_pos h]
  · intro h
    have hN : ¬ (s.N ≤ e) := by
      rw [Set.N]
      omega
    have hgn : sliceGet s.positions e = none := sliceGet_none_of_neg h
    constructor
    · simp only [Set.Insert, if_neg hN, hgn]
    · simp only [Set.Remove, if_neg hN, hgn]

/-- Witness for C3 (amended) at capacity 1 with the concrete elements `5`
and `-2`. -/
theorem C3_out_of_range_behavior_witness :
    Set.Insert { size := 0, values := [0], positions := [0] } 5 =
      .errOutOfRange { size := 0, values := [0], positions := [0] } ∧
    Set.Remove { size := 0, values := [0], positions := [0] } 5 =
      .errOutOfRange { size := 0, values := [0], positions := [0] } ∧
    Set.Insert { size := 0, values := [0], positions := [0] } (-2) = .panicked ∧
    Set.Remove { size := 0, values := [0], positions := [0] } (-2) = .panicked :=
  ⟨((C3_out_of_range_behavior { size := 0, values := [0], positions := [0] } 5).1
      (by decide)).1,
   ((C3_out_of_range_behavior { size := 0, values := [0], positions := [0] } 5).1
      (by decide)).2,
   ((C3_out_of_range_behavior { size := 0, values := [0], positions := [0] } (-2)).2
      (by decide)).1,
   ((C3_out_of_range_behavior { size := 0, values := [0], positions := [0] } (-2)).2
      (by decide)).2⟩

/-- C6: `New n` with `n ≥ 0` returns a set with `size = 0` and the identity
permutation in both arrays (`values[i] = i`, `positions[i] = i` for every
`i < n`), so every element is initially absent; `New` with negative `n`
panics (modelled by `none`) and produces no object. -/
theorem C6_construction (n : Int) :
    (0 ≤ n → ∃ s, New n = some s ∧ s.Size = 0 ∧ s.N = n ∧
      (∀ i : Nat, i < n.toNat →
        s.values.getD i 0 = i ∧ s.positions.getD i 0 = i)) ∧
    (n < 0 → New n = none) := by
  constructor
  · intro hn
    obtain ⟨hG, hsz, hlen, hid⟩ := New_good hn (New_eq_some hn)
    refine ⟨_, New_eq_some hn, hsz, ?_, hid⟩
    rw [Set.N, hlen]
    omega
  · intro hn
    rw [New, if_pos hn]

/-- Witness for C6 at `n = 2` and `n = -1`. -/
theorem C6_construction_witness :
    (∃ s, New 2 = some s ∧ s.Size = 0 ∧ s.N = 2 ∧
      (∀ i : Nat, i < (2 : Int).toNat →
        s.values.getD i 0 = i ∧ s.positions.getD i 0 = i)) ∧
    New (-1) = none :=
  ⟨(C6_construction 2).1 (by decide), (C6_construction (-1)).2 (by decide)⟩

/-- C7: for every in-range element, `Contains` returns exactly the boolean
`positions[elem] < size`.  In the embedding `Contains` is a pure function of
the state — the Go method performs no writes — so it has no side effects. -/
theorem C7_contains (s : Set) (hr : Reachable s) (e : Int) (h0 : 0 ≤ e)
    (hN : e < s.N) :
    ∃ b, s.Contains e = some b ∧
      (b = true ↔ s.positions.getD e.toNat 0 < s.Size) := by
  obtain ⟨hI, hszN⟩ := reachable_weakInv hr
  rw [Set.N] at hN
  have hl : e.toNat < s.positions.length := by rw [hI.1]; omega
  rw [Set.Contains, sliceGet_eq_some h0 hl, Option.map_some']
  exact ⟨_, rfl, by simp [Set.Size]⟩

/-- Witness for C7 on the state reached by `New 1` with element `0`. -/
theorem C7_contains_witness :
    ∃ b, Set.Contains { size := 0, values := [0], positions := [0] } 0 = some b ∧
      (b = true ↔
        List.getD (Set.positions { size := 0, values := [0], positions := [0] })
          (Int.toNat 0) 0 < Set.Size { size := 0, values := [0], positions := [0] }) :=
  C7_contains { size := 0, values := [0], positions := [0] }
    (Reachable.init 1 (by decide) _ (by decide)) 0 (by decide) (by decide)

/-- C8: `Clear` sets `size` to `0` and leaves both arrays untouched; after
`Clear`, `Size` is `0`, `Content` yields no elements and `Absent` yields the
whole `values` array, which is a permutation of the full domain `[0, N)`. -/
theorem C8_clear (s : Set) (hr : Reachable s) :
    s.Clear.Size = 0 ∧
    s.Clear.values = s.values ∧
    s.Clear.positions = s.positions ∧
    s.Clear.Content = some [] ∧
    s.Clear.Absent = some s.values ∧
    s.values.Perm ((List.range s.values.length).map Int.ofNat) := by
  obtain ⟨hI, hszN⟩ := reachable_weakInv hr
  have hC : s.Clear.Content = some [] := by
    rw [Set.Clear, Set.Content]
    rw [if_pos ⟨le_refl 0, by positivity⟩]
    rfl
  have hA : s.Clear.Absent = some s.values := by
    rw [Set.Clear, Set.Absent]
    rw [if_pos ⟨le_refl 0, by positivity⟩]
    rfl
  exact ⟨rfl, rfl, rfl, hC, hA, values_perm_range hI⟩

/-- Witness for C8 on the state reached by `New 1`. -/
theorem C8_clear_witness :
    Set.Size (Set.Clear { size := 0, values := [0], positions := [0] }) = 0 ∧
    Set.values (Set.Clear { size := 0, values := [0], positions := [0] }) = [0] ∧
    Set.positions (Set.Clear { size := 0, values := [0], positions := [0] }) = [0] ∧
    Set.Content (Set.Clear { size := 0, values := [0], positions := [0] }) =
      some [] ∧
    Set.Absent (Set.Clear { size := 0, values := [0], positions := [0] }) =
      some [0] ∧
    List.Perm [0] ((List.range (List.length [(0 : Int)])).map Int.ofNat) :=
  C8_clear { size := 0, values := [0], positions := [0] }
    (Reachable.init 1 (by decide) _ (by decide))

/-- C10: `Contains` performs unchecked indexing: for every in-range element
the read `positions[elem]` is in bounds and a boolean is returned, while for
any element outside `[0, capacity)` — negative or `≥ capacity` — `Contains`
panics (`none`) rather than returning a value. -/
theorem C10_contains_unchecked (s : Set) (hr : Reachable s) (e : Int) :
    (0 ≤ e → e < s.N → ∃ b, s.Contains e = some b) ∧
    ((e < 0 ∨ s.N ≤ e) → s.Contains e = none) := by
  obtain ⟨hI, hszN⟩ := reachable_weakInv hr
  constructor
  · intro h0 hN
    rw [Set.N] at hN
    have hl : e.toNat < s.positions.length := by rw [hI.1]; omega
    rw [Set.Contains, sliceGet_eq_some h0 hl, Option.map_some']
    exact ⟨_, rfl⟩
  · intro hout
    rcases hout with h | h
    · rw [Set.Contains, sliceGet_none_of_neg h]
      rfl
    · rw [Set.N] at h
      rw [Set.Contains, sliceGet_none_of_ge (by rw [hI.1]; exact h)]
      rfl

/-- Witness for C10 on the state reached by `New 1` with elements `0`
(in range) and `5` (out of range). -/
theorem C10_contains_unchecked_witness :
    (∃ b, Set.Contains { size := 0, values := [0], positions := [0] } 0 = some b) ∧
    Set.Contains { size := 0, values := [0], positions := [0] } 5 = none :=
  ⟨(C10_contains_unchecked { size := 0, values := [0], positions := [0] }
      (Reachable.init 1 (by decide) _ (by decide)) 0).1 (by decide) (by decide),
   (C10_contains_unchecked { size := 0, values := [0], positions := [0] }
      (Reachable.init 1 (by decide) _ (by decide)) 5).2 (by decide)⟩

/-- C4: for every reachable state and every in-range element `e`, after a
successful `Insert e` the element is contained and occurs exactly once in
`Content`; the subsequent `Remove e` succeeds, after which `e` is not
contained and occurs exactly once in `Absent`. -/
theorem C4_round_trip (s : Set) (hr : Reachable s) (e : Int) (h0 : 0 ≤ e)
    (_hN : e < s.N) (s1 : Set) (hok : s.Insert e = .ok s1) :
    s1.Contains e = some true ∧
    (∃ c, s1.Content = some c ∧ c.count e = 1) ∧
    ∃ s2, s1.Remove e = .ok s2 ∧ s2.Contains e = some false ∧
      ∃ a, s2.Absent = some a ∧ a.count e = 1 := by
  have hW := reachable_weakInv hr
  obtain ⟨h0', hl, hG1, hv1, hp1, hpres⟩ := Insert_ok_inv hW hok
  obtain ⟨hI1, hsz10, hsz1N⟩ := hG1
  have hl1 : e.toNat < s1.values.length := by rw [hv1]; exact hl
  have hpe0 : 0 ≤ s1.positions.getD e.toNat 0 := (hI1.2.2 e.toNat hl1).1
  have hc1 : s1.Contains e = some true := by
    rw [Set.Contains, sliceGet_eq_some h0 (by rw [hI1.1]; exact hl1),
      Option.map_some', decide_eq_true hpres]
  have hcontent : s1.Content = some (s1.values.take s1.size.toNat) := by
    rw [Set.Content, if_pos ⟨hsz10, hsz1N⟩]
  have hcount1 : (s1.values.take s1.size.toNat).count e = 1 := by
    rw [count_take_values hI1 h0 hl1 (by omega), if_pos (by omega)]
  obtain ⟨s2, hok2, hsz2, hv2, hp2, hI2, hpe2, hval2, hcon2⟩ :=
    Remove_present hI1 h0 hl1 hsz1N hpres
  have hl2 : e.toNat < s2.values.length := by rw [hv2]; exact hl1
  have habsent : s2.Absent = some (s2.values.drop s2.size.toNat) := by
    rw [Set.Absent, if_pos ⟨by omega, by omega⟩]
  have hcount2 : (s2.values.drop s2.size.toNat).count e = 1 := by
    rw [count_drop_values hI2 h0 hl2 (by omega), if_pos (by omega)]
  exact ⟨hc1, ⟨_, hcontent, hcount1⟩, s2, hok2, hcon2, _, habsent, hcount2⟩

/-- Witness for C4: from `New 1`, `Insert 0` succeeds and yields the state
with `size = 1`, on which the round trip is checked. -/
theorem C4_round_trip_witness :
    Set.Contains { size := 1, values := [0], positions := [0] } 0 = some true ∧
    (∃ c, Set.Content { size := 1, values := [0], positions := [0] } = some c ∧
      c.count 0 = 1) ∧
    ∃ s2, Set.Remove { size := 1, values := [0], positions := [0] } 0 = .ok s2 ∧
      s2.Contains 0 = some false ∧
      ∃ a, s2.Absent = some a ∧ a.count 0 = 1 :=
  C4_round_trip { size := 0, values := [0], positions := [0] }
    (Reachable.init 1 (by decide) _ (by decide)) 0 (by decide) (by decide)
    { size := 1, values := [0], positions := [0] } (by decide)

/-- C5: for every in-range element of an uncorrupted reachable state
(`0 ≤ size`; the `Remove` bug can drive `size` negative, after which the
described swap instead panics): if the element is already present
(`positions[elem] < size`), `Insert` succeeds as a no-op with the state — in
particular `size` — unchanged and `Contains` still true; if it is absent,
`Insert` exchanges the entries at index `positions[elem]` and index `size`
of `values`, exchanges the corresponding two entries of `positions` (those
of `elem` and of `values[size]`), leaves everything else unchanged,
increments `size` by one, and afterwards the element is present. -/
theorem C5_insert_cases (s : Set) (hr : Reachable s) (hsz : 0 ≤ s.Size)
    (e : Int) (h0 : 0 ≤ e) (hN : e < s.N) :
    (s.positions.getD e.toNat 0 < s.size →
      s.Insert e = .ok s ∧ s.Contains e = some true) ∧
    (s.size ≤ s.positions.getD e.toNat 0 →
      ∃ s', s.Insert e = .ok s' ∧
        s'.size = s.size + 1 ∧
        s'.values.getD (s.positions.getD e.toNat 0).toNat 0 =
          s.values.getD s.size.toNat 0 ∧
        s'.values.getD s.size.toNat 0 =
          s.values.getD (s.positions.getD e.toNat 0).toNat 0 ∧
        (∀ i : Nat, i < s.values.length →
          i ≠ (s.positions.getD e.toNat 0).toNat → i ≠ s.size.toNat →
          s'.values.getD i 0 = s.values.getD i 0) ∧
        s'.positions.getD e.toNat 0 = s.size ∧
        s'.positions.getD (s.values.getD s.size.toNat 0).toNat 0 =
          s.positions.getD e.toNat 0 ∧
        (∀ v : Nat, v < s.values.length → v ≠ e.toNat →
          v ≠ (s.values.getD s.size.toNat 0).toNat →
          s'.positions.getD v 0 = s.positions.getD v 0) ∧
        s'.Contains e = some true) := by
  obtain ⟨hI, hszN⟩ := reachable_weakInv hr
  rw [Set.N] at hN
  have hl : e.toNat < s.values.length := by omega
  have hVPe : s.values.getD (s.positions.getD e.toNat 0).toNat 0 = e := by
    rw [(hI.2.2 e.toNat hl).2.2]
    omega
  constructor
  · intro hp
    refine ⟨Insert_present hI.1 h0 hl hp, ?_⟩
    rw [Set.Contains, sliceGet_eq_some h0 (by rw [hI.1]; exact hl),
      Option.map_some', decide_eq_true hp]
  · intro hp
    obtain ⟨s', hok, h1, h2, h3, hIs, h4, h5, h6, h7, h8, h9, h10⟩ :=
      Insert_absent hI h0 hl hsz hp
    refine ⟨s', hok, h1, h6, ?_, fun i hi hi1 hi2 => h7 i hi hi2 hi1, h4, h8,
      h9, h10⟩
    rw [h5, hVPe]

/-- Witness for C5: from `New 1` (where `0` is absent, `positions[0] = 0`,
`size = 0`) the absent branch of the claim is checked at element `0`. -/
theorem C5_insert_cases_witness :
    ∃ s', Set.Insert { size := 0, values := [0], positions := [0] } 0 = .ok s' ∧
      s'.size = Set.size { size := 0, values := [0], positions := [0] } + 1 ∧
      s'.values.getD (List.getD
        (Set.positions { size := 0, values := [0], positions := [0] })
        (Int.toNat 0) 0).toNat 0 =
        List.getD (Set.values { size := 0, values := [0], positions := [0] })
          (Set.size { size := 0, values := [0], positions := [0] }).toNat 0 ∧
      s'.values.getD
          (Set.size { size := 0, values := [0], positions := [0] }).toNat 0 =
        List.getD (Set.values { size := 0, values := [0], positions := [0] })
          (List.getD (Set.positions { size := 0, values := [0], positions := [0] })
            (Int.toNat 0) 0).toNat 0 ∧
      (∀ i : Nat, i < (Set.values { size := 0, values := [0], positions := [0] }).length →
        i ≠ (List.getD (Set.positions { size := 0, values := [0], positions := [0] })
          (Int.toNat 0) 0).toNat →
        i ≠ (Set.size { size := 0, values := [0], positions := [0] }).toNat →
        s'.values.getD i 0 =
          List.getD (Set.values { size := 0, values := [0], positions := [0] }) i 0) ∧
      s'.positions.getD (Int.toNat 0) 0 =
        Set.size { size := 0, values := [0], positions := [0] } ∧
      s'.positions.getD (List.getD
          (Set.values { size := 0, values := [0], positions := [0] })
          (Set.size { size := 0, values := [0], positions := [0] }).toNat 0).toNat 0 =
        List.getD (Set.positions { size := 0, values := [0], positions := [0] })
          (Int.toNat 0) 0 ∧
      (∀ v : Nat, v < (Set.values { size := 0, values := [0], positions := [0] }).length →
        v ≠ (0 : Int).toNat →
        v ≠ (List.getD (Set.values { size := 0, values := [0], positions := [0] })
          (Set.size { size := 0, values := [0], positions := [0] }).toNat 0).toNat →
        s'.positions.getD v 0 =
          List.getD (Set.positions { size := 0, values := [0], positions := [0] }) v 0) ∧
      s'.Contains 0 = some true :=
  (C5_insert_cases { size := 0, values := [0], positions := [0] }
    (Reachable.init 1 (by decide) _ (by decide)) (by decide) 0 (by decide)
    (by decide)).2 (by decide)

theorem insertAll_nil (s : Set) : insertAll s [] = some s := rfl

theorem insertAll_cons (s : Set) (e : Int) (l : List Int) {t : Set}
    (hok : s.Insert e = .ok t) : insertAll s (e :: l) = insertAll t l := by
  rw [insertAll, List.foldlM_cons, hok]
  rfl

theorem insertAll_content (l : List Int) :
    ∀ (s : Set) (c : List Int), GoodState s →
    s.Content = some c → l.Nodup →
    (∀ e ∈ l, 0 ≤ e ∧ e < (s.values.length : Int) ∧ e ∉ c) →
    ∃ s', insertAll s l = some s' ∧ GoodState s' ∧
      s'.values.length = s.values.length ∧ s'.Content = some (c ++ l) := by
  induction l with
  | nil =>
    intro s c hG hc hnd hall
    exact ⟨s, insertAll_nil s, hG, rfl, by simpa using hc⟩
  | cons e l ih =>
    intro s c hG hc hnd hall
    obtain ⟨he0, helt, henm⟩ := hall e (List.mem_cons_self e l)
    have hl : e.toNat < s.values.length := by omega
    obtain ⟨hI, hsz0, hszN⟩ := hG
    have hceq : c = s.values.take s.size.toNat := by
      rw [Set.Content, if_pos ⟨hsz0, hszN⟩] at hc
      exact (Option.some.inj hc).symm
    have habs : s.size ≤ s.positions.getD e.toNat 0 := by
      refine absent_of_not_mem_take ⟨hI, hsz0, hszN⟩ he0 hl ?_
      rw [← hceq]
      exact henm
    obtain ⟨s1, hok, hsz1, hv1, hp1, hI1, hpe1, hvsz1, -, hfr1, -, -, -⟩ :=
      Insert_absent hI he0 hl hsz0 habs
    have hplt : s.positions.getD e.toNat 0 < (s.values.length : Int) := by
      have := (hI.2.2 e.toNat hl).2.1
      have := (hI.2.2 e.toNat hl).1
      omega
    have hszlt : s.size.toNat < s.values.length := by omega
    have hG1 : GoodState s1 := ⟨hI1, by omega, by rw [hv1]; omega⟩
    have hc1 : s1.Content = some (c ++ [e]) := by
      rw [Set.Content, if_pos ⟨by omega, by rw [hv1]; omega⟩]
      have htn : s1.size.toNat = s.size.toNat + 1 := by omega
      rw [htn, take_succ_getD (by rw [hv1]; omega), hvsz1]
      have htake : s1.values.take s.size.toNat = s.values.take s.size.toNat := by
        refine take_eq_of_pointwise (by rw [hv1]; omega) (by omega) ?_
        intro i hik
        refine hfr1 i (by omega) (by omega) ?_
        have hq0 : 0 ≤ s.positions.getD e.toNat 0 := (hI.2.2 e.toNat hl).1
        omega
      rw [htake, hceq]
    have hall1 : ∀ x ∈ l, 0 ≤ x ∧ x < (s1.values.length : Int) ∧
        x ∉ c ++ [e] := by
      intro x hx
      obtain ⟨hx0, hxlt, hxnm⟩ := hall x (List.mem_cons_of_mem e hx)
      refine ⟨hx0, by rw [hv1]; exact hxlt, ?_⟩
      rw [List.mem_append]
      rintro (hxc | hxe)
      · exact hxnm hxc
      · rw [List.mem_singleton] at hxe
        exact (List.nodup_cons.mp hnd).1 (hxe ▸ hx)
    obtain ⟨s', hall', hG', hv', hc'⟩ :=
      ih s1 (c ++ [e]) hG1 hc1 (List.nodup_cons.mp hnd).2 hall1
    refine ⟨s', ?_, hG', by rw [hv', hv1], ?_⟩
    · rw [insertAll_cons s e l hok]
      exact hall'
    · rw [hc']
      simp

/-- C9: a successful `Insert` of an absent element places it at index
`oldSize` of `values` (the end of the present partition); consequently,
starting from a fresh set and performing only successful `Insert`s of
distinct in-range elements (no `Remove` or `Clear`), `Content` lists the
inserted elements exactly in insertion order. -/
theorem C9_insertion_order :
    (∀ s : Set, Reachable s → 0 ≤ s.Size → ∀ e : Int, 0 ≤ e → e < s.N →
      s.Contains e = some false → ∀ s', s.Insert e = .ok s' →
      s'.values.getD s.Size.toNat 0 = e) ∧
    (∀ n : Int, 0 ≤ n → ∀ s0, New n = some s0 → ∀ l : List Int, l.Nodup →
      (∀ e ∈ l, 0 ≤ e ∧ e < n) →
      ∃ s', insertAll s0 l = some s' ∧ s'.Content = some l) := by
  constructor
  · intro s hr hsz e h0 hN hcf s' hok
    obtain ⟨hI, hszN⟩ := reachable_weakInv hr
    rw [Set.N] at hN
    have hl : e.toNat < s.values.length := by omega
    have hcf' : ¬ (s.positions.getD e.toNat 0 < s.size) := by
      rw [Set.Contains, sliceGet_eq_some h0 (by rw [hI.1]; exact hl),
        Option.map_some'] at hcf
      intro hc
      rw [decide_eq_true hc] at hcf
      exact Bool.noConfusion (Option.some.inj hcf)
    obtain ⟨s'', hok'', -, -, -, -, -, hvsz, -, -, -, -, -⟩ :=
      Insert_absent hI h0 hl hsz (by omega)
    obtain rfl : s'' = s' := CallResult.ok.inj (hok''.symm.trans hok)
    exact hvsz
  · intro n hn s0 hs0 l hnd hall
    obtain ⟨hG0, hsz0, hlen0, -⟩ := New_good hn hs0
    have hc0 : s0.Content = some [] := by
      rw [Set.Content, if_pos ⟨by omega, by omega⟩]
      rw [hsz0]
      rfl
    obtain ⟨s', hall', -, -, hc'⟩ := insertAll_content l s0 [] hG0 hc0 hnd
      (fun e he => ⟨(hall e he).1,
        by have := (hall e he).2; rw [hlen0]; omega, by simp⟩)
    refine ⟨s', hall', by simpa using hc'⟩

/-- Witness for C9: the placement part on `New 1` with element `0`, and the
insertion-order part on `New 3` with the insertion sequence `[2, 0]`. -/
theorem C9_insertion_order_witness :
    List.getD (Set.values { size := 1, values := [0], positions := [0] })
      (Set.Size { size := 0, values := [0], positions := [0] }).toNat 0 = 0 ∧
    ∃ s', insertAll { size := 0, values := [0, 1, 2], positions := [0, 1, 2] }
        [2, 0] = some s' ∧ s'.Content = some [2, 0] :=
  ⟨C9_insertion_order.1 { size := 0, values := [0], positions := [0] }
      (Reachable.init 1 (by decide) _ (by decide)) (by decide) 0 (by decide)
      (by decide) (by decide) { size := 1, values := [0], positions := [0] }
      (by decide),
   C9_insertion_order.2 3 (by decide)
      { size := 0, values := [0, 1, 2], positions := [0, 1, 2] } (by decide)
      [2, 0] (by decide) (by decide)⟩

end Sparsesets
